import Mathlib

/-! Shallow embedding of the cesqpos ESC/POS command encoder
(the command encoder module, the barcode module and the raster helpers),
with theorems about the byte sequences it produces.

Numbers are modelled as `Int` (wire bytes and numeric parameters), and
fallible functions (those whose source performs `assert` checks) return
`Option` or `Except`: `none` / `.error` means the source throws before
returning any bytes. -/

namespace EscPos

def ESC : Int := 0x1b

def GS : Int := 0x1d

/-- Fonts of the encoder: the closed union of the source. -/
inductive Font
  | A
  | B
deriving DecidableEq

def fontMap : Font → Nat
  | .A => 0
  | .B => 1

/-- byteSplit: asserts 0 ≤ n ≤ 65535 and returns the little-endian pair
low byte first, high byte second. -/
def byteSplit (n : Int) : Option (List Int) :=
  if 0 ≤ n ∧ n ≤ 65535 then
    some [((n.toNat % 256 : Nat) : Int), ((n.toNat / 256 : Nat) : Int)]
  else none

/-- ESC SP: right-side character spacing. The source declares a default
argument of 0 but asserts 0 < n ≤ 255. -/
def setRightSideCharacterSpacing (n : Int := 0) : Option (List Int) :=
  if 0 < n ∧ n ≤ 255 then some [ESC, 0x20, n] else none

/-- ESC !: the source initialises an accumulator to 0 and combines each
flag into it with a bitwise AND. -/
def selectPrintModes (font : Font) (emphasised : Bool := false)
    (doubleHeight : Bool := false) (doubleWidth : Bool := false)
    (underline : Bool := false) : List Int :=
  let n0 : Nat := 0
  let n1 := n0 &&& fontMap font
  let n2 := n1 &&& ((if emphasised then 1 else 0) <<< 3)
  let n3 := n2 &&& ((if doubleHeight then 1 else 0) <<< 4)
  let n4 := n3 &&& ((if doubleWidth then 1 else 0) <<< 5)
  let n5 := n4 &&& ((if underline then 1 else 0) <<< 7)
  [ESC, 0x20, (n5 : Int)]

/-- Horizontal density argument of the bit-image mode command. -/
inductive HorizontalDensity
  | single
  | double
deriving DecidableEq

/-- ESC *: select bit-image mode.  The source asserts the vertical density
is 8 or 24, and for 24 that the data length is divisible by 3; the column
count goes through byteSplit. -/
def selectBitImageMode (verticalDensity : Int := 8)
    (horizontalDensity : HorizontalDensity := .single)
    (data : List Int := []) : Option (List Int) :=
  if verticalDensity = 8 ∨ verticalDensity = 24 then
    if verticalDensity = 24 ∧ ¬(data.length % 3 = 0) then none
    else
      let value : Nat := data.length / (if verticalDensity = 8 then 1 else 3)
      let m : Int := (if verticalDensity = 8 then 0 else 32)
        + (if horizontalDensity = .single then 0 else 1)
      (byteSplit (value : Int)).map (fun bs => [ESC, 0x2a, m] ++ bs ++ data)
  else none

/-- GS !: select character size.  The source computes
widthValue = 16*(width-1), heightValue = 16*(height-1) and then
n = (widthValue << 4) + heightValue. -/
def selectCharacterSize (width : Int := 1) (height : Int := 1) : Option (List Int) :=
  if 1 ≤ width ∧ width ≤ 8 ∧ 1 ≤ height ∧ height ≤ 8 then
    let widthValue : Nat := 16 * (width - 1).toNat
    let heightValue : Nat := 16 * (height - 1).toNat
    let n : Nat := (widthValue <<< 4) + heightValue
    some [GS, 0x21, (n : Int)]
  else none

/-- ESC \x5c: set relative print position (signed offset plus 32768
through byteSplit). -/
def setRelativePrintPosition (d : Int) : Option (List Int) :=
  if -32768 ≤ d ∧ d ≤ 32767 then
    (byteSplit (d + 32768)).map (fun bs => [ESC, 0x5c] ++ bs)
  else none

/-- GS \x5c: set relative vertical print position in page mode (same
signed-offset transform as ESC \x5c). -/
def setRelativeVerticalPrintPositionInPageMode (d : Int) : Option (List Int) :=
  if -32768 ≤ d ∧ d ≤ 32767 then
    (byteSplit (d + 32768)).map (fun bs => [GS, 0x5c] ++ bs)
  else none

/-- JS String.prototype.includes: substring containment. -/
def strIncludes (s t : String) : Bool := decide (t.toList <:+: s.toList)

/-- JS Array.prototype.indexOf: index of the first occurrence, -1 when
absent. -/
def jsIndexOf (l : List String) (s : String) : Int :=
  match l.findIdx? (fun t => t == s) with
  | some i => (i : Int)
  | none => -1

/-- ESC a: select justification.  The source guard is
assert(justification.includes(justification)) - the string checked for
containment in itself - followed by justifications.indexOf(justification). -/
def selectJustification (justification : String := "left") : Option (List Int) :=
  let justifications : List String := ["left", "centered", "right"]
  if strIncludes justification justification then
    some [ESC, 0x61, jsIndexOf justifications justification]
  else none

/-- GS V: cut paper, with a feed-and-cut variant for a positive feed. -/
def cut (feedVertical : Int := 0) : Option (List Int) :=
  if 0 ≤ feedVertical ∧ feedVertical ≤ 255 then
    if 0 < feedVertical then some [GS, 0x56, 65, feedVertical]
    else some [GS, 0x56, 1]
  else none

/-- Character codes of a string, as in the barcode module. -/
def splitToCharCodes (s : String) : List Int :=
  s.toList.map (fun c => (c.toNat : Int))

/-- GS k 65: print a UPC-A barcode.  The source asserts the payload length
is exactly 11, then that every character code is an ASCII digit. -/
def printBarcodeUpcA (data : String) : Except String (List Int) :=
  if data.length = 11 then
    let codes := splitToCharCodes data
    if ∀ c ∈ codes, 48 ≤ c ∧ c ≤ 57 then
      .ok ([GS, 0x6b, 65, (codes.length : Int)] ++ codes)
    else .error "character class"
  else .error "length"

/-- JS truthiness of a pixel value: 0 is blank, anything else prints. -/
def pixelBit (x : Int) : Nat := if x = 0 then 0 else 1

/-- One row chunk of at most 8 pixels packed into a byte: the source joins
the bits into a binary string, pads it on the right to 8 characters with
zeros and parses it base 2. -/
def packChunk (chunk : List Int) : Nat :=
  (chunk.foldl (fun acc x => 2 * acc + pixelBit x) 0) * 2 ^ (8 - chunk.length)

/-- Successive slices of 8 pixels of a row, as the source's slice loop. -/
def chunks8 (row : List Int) : List (List Int) :=
  match row with
  | [] => []
  | x :: xs => (x :: xs.take 7) :: chunks8 (xs.drop 7)
termination_by row.length
decreasing_by
  simp only [List.length_drop, List.length_cons]
  omega

/-- A whole row packed into bytes. -/
def packRow (row : List Int) : List Int :=
  (chunks8 row).map (fun c => ((packChunk c : Nat) : Int))

/-- GS v 0: print a raster bit image. -/
def printRasterBitImage (data : List (List Int)) (verticalScale : Int := 1)
    (horizontalScale : Int := 1) : Option (List Int) :=
  match data with
  | [] => none
  | row0 :: rest =>
    if (row0 :: rest).length < 65536 ∧ 1 ≤ row0.length ∧ row0.length < 65536
        ∧ ∀ line ∈ (row0 :: rest), line.length = row0.length then
      let widthInBytes : Int := (((row0.length + 7) / 8 : Nat) : Int)
      let heightInDots : Int := (((row0 :: rest).length : Nat) : Int)
      let m : Int := (verticalScale - 1) * 2 + (horizontalScale - 1)
      match byteSplit widthInBytes, byteSplit heightInDots with
      | some wb, some hb =>
          some ([GS, 0x76, 0x30, m] ++ wb ++ hb ++ ((row0 :: rest).map packRow).flatten)
      | _, _ => none
    else none

/-- Modelled from the spec: the pixel bit of a row at index i, 0 beyond
the end of the row (the zero padding of the final byte). -/
def rasterBitAt (row : List Int) (i : Nat) : Nat :=
  match row[i]? with
  | some x => pixelBit x
  | none => 0

/-- Modelled from the spec: the byte whose 8 pixels start at `base`,
most-significant bit first, zero-padded past the end of the row. -/
def specByteAt (row : List Int) (base : Nat) : Nat :=
  128 * rasterBitAt row base + 64 * rasterBitAt row (base + 1)
    + 32 * rasterBitAt row (base + 2) + 16 * rasterBitAt row (base + 3)
    + 8 * rasterBitAt row (base + 4) + 4 * rasterBitAt row (base + 5)
    + 2 * rasterBitAt row (base + 6) + rasterBitAt row (base + 7)

/-- Modelled from the spec: byte j of a row packs the 8 pixels starting
at index 8*j. -/
def specRasterByte (row : List Int) (j : Nat) : Nat :=
  specByteAt row (8 * j)

/-- Modelled from the spec: a row packed into ceil(width/8) bytes. -/
def specPackRow (row : List Int) : List Int :=
  (List.range ((row.length + 7) / 8)).map (fun j => ((specRasterByte row j : Nat) : Int))

end EscPos

namespace EscPos

/-- Claim C1: the spec wants the single parameter byte
(width-1 and height-1 packed into the two nibbles of one byte,
0x11 for width 2, height 2), but the code computes 16*(width-1)
shifted left again by 4, producing 272 at (2,2) - not 0x11 and not
even a value that fits in one byte. -/
theorem selectCharacterSize_two_two_is_272 :
    selectCharacterSize 2 2 = some [0x1d, 0x21, 272]
      ∧ ¬((272 : Int) = 0x11) ∧ ¬((272 : Int) ≤ 255) := by
  refine ⟨by decide, by decide, by decide⟩

/-- Claim C2: the justification encoder never rejects any string: its
guard checks the argument for substring containment in itself, which
always holds, and an unknown name is encoded via indexOf as the
out-of-table wire value -1 instead of failing validation. -/
theorem selectJustification_accepts_everything :
    (∀ s : String, selectJustification s
        = some [0x1b, 0x61, jsIndexOf ["left", "centered", "right"] s])
      ∧ selectJustification "bogus" = some [0x1b, 0x61, -1] := by
  have hall : ∀ s : String, selectJustification s
      = some [0x1b, 0x61, jsIndexOf ["left", "centered", "right"] s] := by
    intro s
    have h : strIncludes s s = true := by
      simp only [strIncludes, decide_eq_true_eq]
      exact List.infix_refl _
    simp [selectJustification, h, ESC]
  refine ⟨hall, (hall "bogus").trans ?_⟩
  rfl

/-- Claim C6: cut with feed 0 (the declared default) yields the fixed
3-byte default-cut sequence, and cut with a feed in [1,255] yields the
4-byte feed-and-cut sequence whose last byte is the feed. -/
theorem cut_spec :
    cut 0 = some [0x1d, 0x56, 1]
      ∧ ∀ n : Int, 1 ≤ n → n ≤ 255 → cut n = some [0x1d, 0x56, 65, n] := by
  constructor
  · decide
  · intro n h1 h2
    simp only [cut, GS]
    rw [if_pos ⟨by omega, h2⟩, if_pos (by omega)]

/-- Claim C6 witness: cut 10 is the 4-byte sequence ending in 10. -/
theorem cut_spec_witness : cut 10 = some [0x1d, 0x56, 65, 10] :=
  cut_spec.2 10 (by decide) (by decide)

/-- Claim C7: byteSplit returns the low byte n mod 256 then the high byte
n div 256, the pair recomposes to n, and any n outside [0,65535] fails
the range check before any bytes are produced. -/
theorem byteSplit_spec (n : Int) :
    (0 ≤ n → n ≤ 65535 →
      byteSplit n = some [((n.toNat % 256 : Nat) : Int), ((n.toNat / 256 : Nat) : Int)]
        ∧ ((n.toNat % 256 : Nat) : Int) + 256 * ((n.toNat / 256 : Nat) : Int) = n)
      ∧ ((n < 0 ∨ 65535 < n) → byteSplit n = none) := by
  constructor
  · intro h1 h2
    refine ⟨by simp only [byteSplit]; rw [if_pos ⟨h1, h2⟩], ?_⟩
    omega
  · intro h
    simp only [byteSplit]
    rw [if_neg (by omega)]

/-- Claim C7 witness: byteSplit 300 gives low 44, high 1, recomposing
to 300. -/
theorem byteSplit_spec_witness :
    byteSplit 300 = some [44, 1] ∧ (44 : Int) + 256 * 1 = 300 := by
  have h := (byteSplit_spec 300).1 (by decide) (by decide)
  exact ⟨h.1.trans (by decide), by decide⟩

/-- Claim C8: for d in [-32768,32767] both relative-position encoders emit
opcode bytes then the byteSplit pair of d + 32768; recomposing the
little-endian pair and subtracting 32768 recovers d; out-of-range d fails
validation in both. -/
theorem relativePrintPosition_spec (d : Int) :
    (-32768 ≤ d → d ≤ 32767 →
      setRelativePrintPosition d
          = some [0x1b, 0x5c, (((d + 32768).toNat % 256 : Nat) : Int),
              (((d + 32768).toNat / 256 : Nat) : Int)]
        ∧ setRelativeVerticalPrintPositionInPageMode d
          = some [0x1d, 0x5c, (((d + 32768).toNat % 256 : Nat) : Int),
              (((d + 32768).toNat / 256 : Nat) : Int)]
        ∧ ((((d + 32768).toNat % 256 : Nat) : Int)
            + 256 * (((d + 32768).toNat / 256 : Nat) : Int)) - 32768 = d)
      ∧ ((d < -32768 ∨ 32767 < d) →
        setRelativePrintPosition d = none
          ∧ setRelativeVerticalPrintPositionInPageMode d = none) := by
  constructor
  · intro h1 h2
    have hb : byteSplit (d + 32768)
        = some [(((d + 32768).toNat % 256 : Nat) : Int),
            (((d + 32768).toNat / 256 : Nat) : Int)] := by
      simp only [byteSplit]
      rw [if_pos ⟨by omega, by omega⟩]
    refine ⟨?_, ?_, by omega⟩
    · simp only [setRelativePrintPosition]
      rw [if_pos ⟨h1, h2⟩, hb]
      rfl
    · simp only [setRelativeVerticalPrintPositionInPageMode]
      rw [if_pos ⟨h1, h2⟩, hb]
      rfl
  · intro h
    constructor
    · simp only [setRelativePrintPosition]
      rw [if_neg (by omega)]
    · simp only [setRelativeVerticalPrintPositionInPageMode]
      rw [if_neg (by omega)]

/-- Claim C8 witness: at d = -1 both encoders emit the pair (255, 127),
which recomposes to 32767 = -1 + 32768. -/
theorem relativePrintPosition_spec_witness :
    setRelativePrintPosition (-1) = some [0x1b, 0x5c, 255, 127]
      ∧ setRelativeVerticalPrintPositionInPageMode (-1) = some [0x1d, 0x5c, 255, 127] := by
  have h := (relativePrintPosition_spec (-1)).1 (by decide) (by decide)
  exact ⟨h.1.trans (by decide), h.2.1.trans (by decide)⟩

/-- byteSplit succeeds on any natural number up to 65535, returning the
mod-256 and div-256 bytes. -/
theorem byteSplit_natCast (k : Nat) (h : k ≤ 65535) :
    byteSplit (k : Int) = some [((k % 256 : Nat) : Int), ((k / 256 : Nat) : Int)] := by
  simp only [byteSplit]
  rw [if_pos ⟨by omega, by omega⟩]
  simp

/-- Claim C5: the bit-image mode encoder rejects densities other than
8 and 24, rejects a 24-dot strip whose length is not divisible by 3, and
otherwise emits the mode byte (32 for density 24 plus 1 for double
horizontal density), the column count as a little-endian pair, then the
raw strip. -/
theorem selectBitImageMode_spec (vd : Int) (hd : HorizontalDensity) (data : List Int) :
    (¬(vd = 8 ∨ vd = 24) → selectBitImageMode vd hd data = none)
      ∧ (vd = 24 → data.length % 3 ≠ 0 → selectBitImageMode vd hd data = none)
      ∧ (vd = 8 → data.length ≤ 65535 →
        selectBitImageMode vd hd data
          = some ([0x1b, 0x2a, (if hd = .double then 1 else 0)]
              ++ [((data.length % 256 : Nat) : Int), ((data.length / 256 : Nat) : Int)]
              ++ data))
      ∧ (vd = 24 → data.length % 3 = 0 → data.length / 3 ≤ 65535 →
        selectBitImageMode vd hd data
          = some ([0x1b, 0x2a, 32 + (if hd = .double then 1 else 0)]
              ++ [(((data.length / 3) % 256 : Nat) : Int), (((data.length / 3) / 256 : Nat) : Int)]
              ++ data)) := by
  refine ⟨?_, ?_, ?_, ?_⟩
  · intro h
    unfold selectBitImageMode
    rw [if_neg h]
  · intro h1 h2
    subst h1
    unfold selectBitImageMode
    rw [if_pos (show (24 : Int) = 8 ∨ (24 : Int) = 24 from Or.inr rfl),
      if_pos (show (24 : Int) = 24 ∧ ¬(data.length % 3 = 0) from ⟨rfl, h2⟩)]
  · intro h1 h2
    subst h1
    unfold selectBitImageMode
    rw [if_pos (show (8 : Int) = 8 ∨ (8 : Int) = 24 from Or.inl rfl),
      if_neg (show ¬((8 : Int) = 24 ∧ ¬(data.length % 3 = 0)) from fun h => by norm_num at h)]
    simp only [eq_self_iff_true, if_true]
    rw [byteSplit_natCast (data.length / 1) (by simpa using h2)]
    cases hd <;> simp [ESC]
  · intro h1 h2 h3
    subst h1
    unfold selectBitImageMode
    rw [if_pos (show (24 : Int) = 8 ∨ (24 : Int) = 24 from Or.inr rfl),
      if_neg (show ¬((24 : Int) = 24 ∧ ¬(data.length % 3 = 0)) from fun h => h.2 h2)]
    simp only [if_neg (show ¬((24 : Int) = 8) from by norm_num)]
    rw [byteSplit_natCast (data.length / 3) h3]
    cases hd <;> simp [ESC]

/-- Claim C5 witness: a 3-pixel strip at 24-dot double density encodes as
mode byte 33, one column (little-endian 1, 0), then the raw strip. -/
theorem selectBitImageMode_spec_witness :
    selectBitImageMode 24 .double [1, 2, 3] = some [0x1b, 0x2a, 33, 1, 0, 1, 2, 3] := by
  have h := (selectBitImageMode_spec 24 .double [1, 2, 3]).2.2.2 rfl (by decide) (by decide)
  rw [h]
  rfl

theorem toList_length (s : String) : s.toList.length = s.length := rfl

/-- The digit check of the barcode encoder, over character codes, matches
the same check over the characters themselves. -/
theorem digits_iff (s : String) :
    (∀ c ∈ splitToCharCodes s, 48 ≤ c ∧ c ≤ 57)
      ↔ (∀ ch ∈ s.toList, 48 ≤ ch.toNat ∧ ch.toNat ≤ 57) := by
  constructor
  · intro h ch hch
    have := h ((ch.toNat : Int)) (List.mem_map_of_mem _ hch)
    omega
  · intro h c hc
    obtain ⟨ch, hch, rfl⟩ := List.mem_map.1 hc
    have := h ch hch
    omega

/-- Claim C3: printBarcodeUpcA succeeds exactly when the payload is 11
characters, all ASCII digits, returning opcode, symbology selector 65,
length byte 11 and the 11 digit character codes verbatim; a payload of
the wrong length fails the length check and an 11-character payload with
a non-digit fails the character-class check. -/
theorem printBarcodeUpcA_spec (s : String) :
    (s.length = 11 → (∀ ch ∈ s.toList, 48 ≤ ch.toNat ∧ ch.toNat ≤ 57) →
        printBarcodeUpcA s = .ok ([0x1d, 0x6b, 65, 11] ++ splitToCharCodes s))
      ∧ (s.length ≠ 11 → printBarcodeUpcA s = .error "length")
      ∧ (s.length = 11 → ¬(∀ ch ∈ s.toList, 48 ≤ ch.toNat ∧ ch.toNat ≤ 57) →
        printBarcodeUpcA s = .error "character class") := by
  refine ⟨?_, ?_, ?_⟩
  · intro h1 h2
    have hlen : ((splitToCharCodes s).length : Int) = 11 := by
      simp [splitToCharCodes, toList_length, h1]
    simp only [printBarcodeUpcA]
    rw [if_pos h1, if_pos ((digits_iff s).2 h2), hlen]
    rfl
  · intro h1
    simp only [printBarcodeUpcA]
    rw [if_neg h1]
  · intro h1 h2
    simp only [printBarcodeUpcA]
    rw [if_pos h1, if_neg (fun hc => h2 ((digits_iff s).1 hc))]

/-- Claim C3 witness: the 11-digit payload succeeds with length byte 11
and the digit character codes verbatim. -/
theorem printBarcodeUpcA_spec_witness :
    printBarcodeUpcA "12345678901"
      = .ok [0x1d, 0x6b, 65, 11, 49, 50, 51, 52, 53, 54, 55, 56, 57, 48, 49] := by
  have h := (printBarcodeUpcA_spec "12345678901").1 (by decide) (by decide)
  rw [h]
  rfl

theorem rasterBitAt_take (row : List Int) (n i : Nat) (h : i < n) :
    rasterBitAt (row.take n) i = rasterBitAt row i := by
  unfold rasterBitAt
  rw [List.getElem?_take_of_lt h]

theorem rasterBitAt_drop (row : List Int) (n i : Nat) :
    rasterBitAt (row.drop n) i = rasterBitAt row (n + i) := by
  unfold rasterBitAt
  rw [List.getElem?_drop]

/-- A chunk of at most 8 pixels packs, via the source's join-pad-parse
route, to exactly the MSB-first byte the spec describes. -/
theorem packChunk_small (chunk : List Int) (hle : chunk.length ≤ 8) :
    packChunk chunk = specByteAt chunk 0 := by
  match chunk with
  | [] =>
    simp [packChunk, specByteAt, rasterBitAt]
  | [a] =>
    simp [packChunk, specByteAt, rasterBitAt]
    ring
  | [a, b] =>
    simp [packChunk, specByteAt, rasterBitAt]
    ring
  | [a, b, c] =>
    simp [packChunk, specByteAt, rasterBitAt]
    ring
  | [a, b, c, d] =>
    simp [packChunk, specByteAt, rasterBitAt]
    ring
  | [a, b, c, d, e] =>
    simp [packChunk, specByteAt, rasterBitAt]
    ring
  | [a, b, c, d, e, f] =>
    simp [packChunk, specByteAt, rasterBitAt]
    ring
  | [a, b, c, d, e, f, g] =>
    simp [packChunk, specByteAt, rasterBitAt]
    ring
  | [a, b, c, d, e, f, g, h] =>
    simp [packChunk, specByteAt, rasterBitAt]
    ring
  | a :: b :: c :: d :: e :: f :: g :: h :: i :: rest =>
    simp at hle

theorem specByteAt_drop8 (row : List Int) (b : Nat) :
    specByteAt (row.drop 8) b = specByteAt row (8 + b) := by
  simp only [specByteAt, rasterBitAt_drop, Nat.add_assoc]

theorem specByteAt_take8 (row : List Int) :
    specByteAt (row.take 8) 0 = specByteAt row 0 := by
  simp only [specByteAt]
  rw [rasterBitAt_take _ _ _ (by omega), rasterBitAt_take _ _ _ (by omega),
    rasterBitAt_take _ _ _ (by omega), rasterBitAt_take _ _ _ (by omega),
    rasterBitAt_take _ _ _ (by omega), rasterBitAt_take _ _ _ (by omega),
    rasterBitAt_take _ _ _ (by omega), rasterBitAt_take _ _ _ (by omega)]

theorem specRasterByte_drop8 (row : List Int) (j : Nat) :
    specRasterByte (row.drop 8) j = specRasterByte row (j + 1) := by
  simp only [specRasterByte, specByteAt_drop8]
  congr 1
  omega

/-- The chunked packing of a whole row equals the spec's per-byte
description of it. -/
theorem chunks8_pack : ∀ (fuel : Nat) (row : List Int), row.length ≤ fuel →
    (chunks8 row).map packChunk
      = (List.range ((row.length + 7) / 8)).map (specRasterByte row) := by
  intro fuel
  induction fuel with
  | zero =>
    intro row h
    have hrow : row = [] := List.length_eq_zero.1 (Nat.le_zero.1 h)
    subst hrow
    simp [chunks8]
  | succ fuel ih =>
    intro row h
    match row with
    | [] => simp [chunks8]
    | x :: xs =>
      have hdrop : (xs.drop 7).length ≤ fuel := by
        simp only [List.length_drop]
        simp only [List.length_cons] at h
        omega
      have hcount : ((x :: xs).length + 7) / 8 = ((xs.drop 7).length + 7) / 8 + 1 := by
        simp only [List.length_drop, List.length_cons]
        omega
      rw [chunks8]
      simp only [List.map_cons]
      rw [ih (xs.drop 7) hdrop, hcount, List.range_succ_eq_map, List.map_cons, List.map_map]
      congr 1
      · rw [show x :: xs.take 7 = (x :: xs).take 8 from rfl,
          packChunk_small _ (by simp), specByteAt_take8]
        simp [specRasterByte]
      · refine List.map_congr_left ?_
        intro j hj
        rw [show xs.drop 7 = (x :: xs).drop 8 from rfl, specRasterByte_drop8]
        simp [Function.comp, Nat.succ_eq_add_one]

/-- The source's row packing refines the spec's description: 8 pixels per
byte, most-significant bit first, zero padding at the end of the row. -/
theorem packRow_eq_spec (row : List Int) : packRow row = specPackRow row := by
  have h := chunks8_pack row.length row (Nat.le_refl _)
  simp only [packRow, specPackRow]
  calc (chunks8 row).map (fun c => ((packChunk c : Nat) : Int))
      = ((chunks8 row).map packChunk).map (fun k : Nat => (k : Int)) := by
        simp [List.map_map, Function.comp]
    _ = ((List.range ((row.length + 7) / 8)).map (specRasterByte row)).map
          (fun k : Nat => (k : Int)) := by rw [h]
    _ = (List.range ((row.length + 7) / 8)).map
          (fun j => ((specRasterByte row j : Nat) : Int)) := by
        simp [List.map_map, Function.comp]

/-- Claim C4: on a rectangular grid with width and height in [1,65535],
printRasterBitImage emits the header (opcode, mode byte, widthInBytes and
heightInDots as little-endian pairs) followed by each row packed 8 pixels
per byte, most-significant bit first, the last byte of a row zero-padded:
the packed rows are exactly the spec's specPackRow of each row. -/
theorem printRasterBitImage_spec (data : List (List Int)) (vs hs : Int) (w : Nat)
    (hne : data ≠ [])
    (hlen : data.length < 65536)
    (hw : ∀ row ∈ data, row.length = w)
    (hw1 : 1 ≤ w) (hw2 : w < 65536) :
    printRasterBitImage data vs hs
      = some ([0x1d, 0x76, 0x30, (vs - 1) * 2 + (hs - 1)]
          ++ [((((w + 7) / 8) % 256 : Nat) : Int), ((((w + 7) / 8) / 256 : Nat) : Int)]
          ++ [((data.length % 256 : Nat) : Int), ((data.length / 256 : Nat) : Int)]
          ++ (data.map specPackRow).flatten) := by
  cases data with
  | nil => exact absurd rfl hne
  | cons row0 rest =>
    have hr0 : row0.length = w := hw row0 (by simp)
    have hcond : (row0 :: rest).length < 65536 ∧ 1 ≤ row0.length ∧ row0.length < 65536
        ∧ ∀ line ∈ (row0 :: rest), line.length = row0.length :=
      ⟨hlen, by omega, by omega, fun line hl => by rw [hw line hl, hr0]⟩
    have hwb : ((row0.length + 7) / 8 : Nat) ≤ 65535 := by omega
    have hhd : ((row0 :: rest).length : Nat) ≤ 65535 := by omega
    simp only [printRasterBitImage]
    rw [if_pos hcond, byteSplit_natCast _ hwb, byteSplit_natCast _ hhd]
    have hfun : packRow = specPackRow := funext packRow_eq_spec
    simp only [hfun, hr0, GS]

/-- Claim C4 witness: the 9-wide, 2-tall all-print grid gives
widthInBytes 2, heightInDots 2, and each row packed as 0xFF, 0x80. -/
theorem printRasterBitImage_spec_witness :
    printRasterBitImage [[1, 1, 1, 1, 1, 1, 1, 1, 1], [1, 1, 1, 1, 1, 1, 1, 1, 1]] 1 1
      = some [0x1d, 0x76, 0x30, 0, 2, 0, 2, 0, 0xff, 0x80, 0xff, 0x80] := by
  have h := printRasterBitImage_spec
    [[1, 1, 1, 1, 1, 1, 1, 1, 1], [1, 1, 1, 1, 1, 1, 1, 1, 1]] 1 1 9
    (by decide) (by decide) (by decide) (by decide) (by decide)
  rw [h]
  rfl

/-- Claim C9: selectPrintModes returns the identical byte sequence
for every combination of its arguments, because every flag is combined
into the zero accumulator with bitwise AND. -/
theorem selectPrintModes_always_zero (f : Font) (e dh dw ul : Bool) :
    selectPrintModes f e dh dw ul = [0x1b, 0x20, 0] := by
  cases f <;> cases e <;> cases dh <;> cases dw <;> cases ul <;> rfl

/-- Claim C10: the right-side character spacing command rejects its own
declared default value 0, and accepts exactly the inputs in [1,255]. -/
theorem setRightSideCharacterSpacing_spec :
    setRightSideCharacterSpacing 0 = none
      ∧ ∀ n : Int, (setRightSideCharacterSpacing n).isSome = true ↔ (1 ≤ n ∧ n ≤ 255) := by
  constructor
  · decide
  · intro n
    simp only [setRightSideCharacterSpacing]
    split
    · rename_i h
      simp only [Option.isSome_some, true_iff]
      omega
    · rename_i h
      simp only [Option.isSome_none]
      constructor
      · intro hh
        exact absurd hh (by decide)
      · intro hh
        exact absurd (show (0 : Int) < n ∧ n ≤ 255 from ⟨by omega, hh.2⟩) h

end EscPos
